import Mathlib

/-!
Verification of the ssh-menu config layer (src/ssh-menu/config.py).

The source is a small Python module managing a registry of SSH connection
profiles persisted as JSON.  We shallowly embed it:

* JSON values (the result of `json.loads`) become the inductive `JVal`.
* Python's `in` operator and string-keyed indexing are modelled by
  `pyContains` and `pyIndex`, including their TypeError/KeyError behaviour
  on non-dict operands (Python's `k in s` on a string is a substring test,
  `k in n` on a number raises TypeError, `s[k]` with a string key on a
  non-dict raises TypeError).
* Exceptions become an `Except PyErr` result; `PyErr` distinguishes
  `InvalidConfigException` (with its reason string) from other Python
  errors (TypeError, KeyError).
* `json.loads`/`json.dumps` are external library calls; `get_servers_config`
  is modelled on the already-parsed document (a `JVal`), and the text
  written by `save`/`init_config` uses `jsonDumps`, a model of
  `json.dumps(..., indent=2)` (string escaping is modelled for the common
  escapes; the claims only serialize brace/quote-free strings).
* The filesystem touched by `init_config` is a `FS` value: a list of
  existing directories plus a path-to-content map; the HOME environment
  variable is an explicit `home : String` argument.
-/

/-- A parsed JSON value, as produced by Python's `json.loads`.
Objects keep their (unique, insertion-ordered) key/value pairs as an
association list, matching Python dict semantics. -/
inductive JVal where
  | jstr : String → JVal
  | jnum : Int → JVal
  | jbool : Bool → JVal
  | jnull : JVal
  | jarr : List JVal → JVal
  | jobj : List (String × JVal) → JVal
deriving Repr, BEq

/-- Errors a call into the config layer can raise: `InvalidConfigException`
with its reason string, or one of the builtin Python errors the dynamic
code can hit. -/
inductive PyErr where
  | invalidConfig : String → PyErr
  | typeError : PyErr
  | keyError : PyErr
deriving Repr, DecidableEq

/-- Does the character list `needle` occur as a leading segment of `hay`? -/
def startsWithL : List Char → List Char → Bool
  | [], _ => true
  | _ :: _, [] => false
  | a :: as, b :: bs => a == b && startsWithL as bs

/-- Does the character list `needle` occur contiguously inside `hay`?
Models Python's `needle in hay` on strings. -/
def subOfL (needle : List Char) : List Char → Bool
  | [] => startsWithL needle []
  | c :: t => startsWithL needle (c :: t) || subOfL needle t

/-- Python's `==` between a JSON value and a string literal: only an equal
string compares equal (numbers, booleans, None, lists and dicts are never
`==` to a `str`). -/
def pyEqStr (v : JVal) (s : String) : Bool :=
  match v with
  | .jstr t => t == s
  | _ => false

/-- Python's `k in v` for a string `k`: key membership on dicts, substring
test on strings, element membership on lists, TypeError on non-iterables
(numbers, booleans, None). -/
def pyContains (v : JVal) (k : String) : Except PyErr Bool :=
  match v with
  | .jobj kvs => .ok (kvs.any (fun p => p.1 == k))
  | .jstr s => .ok (subOfL k.data s.data)
  | .jarr xs => .ok (xs.any (fun x => pyEqStr x k))
  | .jnum _ => .error .typeError
  | .jbool _ => .error .typeError
  | .jnull => .error .typeError

/-- Python's `v[k]` for a string key `k`: dict lookup (KeyError when the
key is absent), TypeError on strings, lists and every other value. -/
def pyIndex (v : JVal) (k : String) : Except PyErr JVal :=
  match v with
  | .jobj kvs =>
    match kvs.find? (fun p => p.1 == k) with
    | some p => .ok p.2
    | none => .error .keyError
  | _ => .error .typeError

/-- First value stored under key `k` in an association list, if any. -/
def jlookup (kvs : List (String × JVal)) (k : String) : Option JVal :=
  (kvs.find? (fun p => p.1 == k)).map (fun p => p.2)

/-- Is the value a JSON object (a Python dict after parsing)?  Models
`isinstance(v, dict)`. -/
def JVal.isObj : JVal → Bool
  | .jobj _ => true
  | _ => false

/-- `v.hasKey k`: the value is an object carrying key `k`. -/
def JVal.hasKey (v : JVal) (k : String) : Bool :=
  match v with
  | .jobj kvs => kvs.any (fun p => p.1 == k)
  | _ => false

/-! Constants from the top of config.py. -/

def VERSION : String := "1"
def VERSION_KEY : String := "version"
def SERVERS_KEY : String := "servers"
def USER_KEY : String := "user"
def ADDRESS_KEY : String := "address"

/-- `default_config_dir`: `"%s/.ssh-menu" % home`. -/
def default_config_dir (home : String) : String := home ++ "/.ssh-menu"

/-- `default_servers_config`: `"%s/servers" % default_config_dir`. -/
def default_servers_config (home : String) : String :=
  default_config_dir home ++ "/servers"

/-- The `Server` class: one connection record.  `name` is always the string
a caller passed; `user` and `address` hold whatever JSON values the config
carried (the Python code never checks their types). -/
structure Server where
  name : String
  user : JVal
  address : JVal
deriving Repr

/-- The `ServersConfig` class: the path it was loaded from plus the
`servers` dict (name key → `Server`), kept as an insertion-ordered
association list exactly like a Python dict. -/
structure ServersConfig where
  path : String
  servers : List (String × Server)
deriving Repr

/-- Python dict assignment `d[k] = v`: replace in place when the key is
present, append otherwise. -/
def dictSet {α : Type} (kvs : List (String × α)) (k : String) (v : α) :
    List (String × α) :=
  if kvs.any (fun p => p.1 == k) then
    kvs.map (fun p => if p.1 == k then (k, v) else p)
  else kvs ++ [(k, v)]

/-- Python `del d[k]`: drop the entry when the key is present, KeyError
otherwise. -/
def dictDel {α : Type} (kvs : List (String × α)) (k : String) :
    Except PyErr (List (String × α)) :=
  if kvs.any (fun p => p.1 == k) then
    .ok (kvs.eraseP (fun p => p.1 == k))
  else .error .keyError

/-- The body of the per-entry loop of `get_servers_config` for one
`server` value: check `user` then `address` membership (fail-fast
`InvalidConfigException` on the first missing key, exactly the Python
`for k in required_keys` loop), then read both values. -/
def loadOne (server : JVal) : Except PyErr (JVal × JVal) :=
  match pyContains server USER_KEY with
  | .error e => .error e
  | .ok hasUser =>
    if !hasUser then
      .error (.invalidConfig ("server missing required key: " ++ USER_KEY))
    else
      match pyContains server ADDRESS_KEY with
      | .error e => .error e
      | .ok hasAddr =>
        if !hasAddr then
          .error (.invalidConfig ("server missing required key: " ++ ADDRESS_KEY))
        else
          match pyIndex server USER_KEY with
          | .error e => .error e
          | .ok u =>
            match pyIndex server ADDRESS_KEY with
            | .error e => .error e
            | .ok a => .ok (u, a)

/-- The per-entry validation/construction loop of `get_servers_config`:
for each `(name, server)` run `loadOne` and store
`Server(name, user, address)` under `name` in the accumulated dict. -/
def loadServers : List (String × JVal) → List (String × Server) →
    Except PyErr (List (String × Server))
  | [], acc => .ok acc
  | (name, server) :: rest, acc =>
    match loadOne server with
    | .error e => .error e
    | .ok (u, a) => loadServers rest (dictSet acc name ⟨name, u, a⟩)

/-- The second half of `get_servers_config`: the `servers` presence/type
check followed by the entry loop (reached only after the version check
passed). -/
def checkServers (path : String) (config : JVal) :
    Except PyErr ServersConfig :=
  match pyContains config SERVERS_KEY with
  | .error e => .error e
  | .ok hasS =>
    if !hasS then
      .error (.invalidConfig ("malformed or missing " ++ SERVERS_KEY ++ " from config"))
    else
      match pyIndex config SERVERS_KEY with
      | .error e => .error e
      | .ok sv =>
        match sv with
        | .jobj entries =>
          match loadServers entries [] with
          | .error e => .error e
          | .ok servers => .ok ⟨path, servers⟩
        | _ =>
          .error (.invalidConfig ("malformed or missing " ++ SERVERS_KEY ++ " from config"))

/-- `get_servers_config(path)` after `json.loads` produced `config`:
validate the version key, validate that `servers` is present and a dict,
then run the entry loop.  Faithful to the Python short-circuit order:
membership is tested before indexing, so a non-dict document can raise
TypeError from `in` itself. -/
def get_servers_config (path : String) (config : JVal) :
    Except PyErr ServersConfig :=
  match pyContains config VERSION_KEY with
  | .error e => .error e
  | .ok hasV =>
    if !hasV then .error (.invalidConfig "unsupported config version")
    else
      match pyIndex config VERSION_KEY with
      | .error e => .error e
      | .ok v =>
        if !(pyEqStr v VERSION) then
          .error (.invalidConfig "unsupported config version")
        else checkServers path config

/-- Python `repr` of a string: single quotes with backslash/quote escapes
(the further control-character escapes of CPython are not modelled; no
claim formats a container holding control characters). -/
def pyReprStr (s : String) : String :=
  "'" ++ String.join (s.data.map (fun c =>
    if c == '\\' then "\\\\"
    else if c == '\'' then "\\'"
    else String.mk [c])) ++ "'"

mutual

/-- Python `repr` of a JSON value, used by `str()` on containers. -/
def pyRepr : JVal → String
  | .jstr s => pyReprStr s
  | .jnum n => toString n
  | .jbool b => if b then "True" else "False"
  | .jnull => "None"
  | .jarr xs => "[" ++ pyReprList xs ++ "]"
  | .jobj kvs => "\x7b" ++ pyReprEntries kvs ++ "\x7d"

/-- Comma-separated `repr`s of list elements. -/
def pyReprList : List JVal → String
  | [] => ""
  | [x] => pyRepr x
  | x :: y :: t => pyRepr x ++ ", " ++ pyReprList (y :: t)

/-- Comma-separated `'key': value` renderings of dict entries. -/
def pyReprEntries : List (String × JVal) → String
  | [] => ""
  | [p] => pyReprStr p.1 ++ ": " ++ pyRepr p.2
  | p :: q :: t => pyReprStr p.1 ++ ": " ++ pyRepr p.2 ++ ", " ++ pyReprEntries (q :: t)

end

/-- Python `str()` / `"%s"` formatting of a JSON value: strings pass
through verbatim, other scalars use their Python renderings, containers
fall back to `repr`. -/
def pyStr : JVal → String
  | .jstr s => s
  | .jnum n => toString n
  | .jbool b => if b then "True" else "False"
  | .jnull => "None"
  | .jarr xs => pyRepr (.jarr xs)
  | .jobj kvs => pyRepr (.jobj kvs)

namespace Server

/-- `Server.connection_string`: `"%s@%s" % (user, address)`. -/
def connection_string (s : Server) : String :=
  pyStr s.user ++ "@" ++ pyStr s.address

/-- `Server.to_map`: `{USER_KEY: user, ADDRESS_KEY: address}`. -/
def to_map (s : Server) : JVal :=
  .jobj [(USER_KEY, s.user), (ADDRESS_KEY, s.address)]

end Server

/-- The update half of `add_server`: Python mutates the `Server` object
returned by `get_server`, i.e. the first dict value whose `name` field
matches; every other entry is untouched. -/
def updateServers : List (String × Server) → String → JVal → JVal →
    List (String × Server)
  | [], _, _, _ => []
  | (k, s) :: rest, name, u, a =>
    if s.name == name then (k, { s with user := u, address := a }) :: rest
    else (k, s) :: updateServers rest name u a

namespace ServersConfig

/-- `ServersConfig.to_map`: `{VERSION_KEY: VERSION, SERVERS_KEY: {...}}`
with one `server.to_map()` entry per dict key. -/
def to_map (c : ServersConfig) : JVal :=
  .jobj [(VERSION_KEY, .jstr VERSION),
         (SERVERS_KEY, .jobj (c.servers.map (fun p => (p.1, p.2.to_map))))]

/-- `ServersConfig.get_server`: scan `servers.values()` in order, return
the first record whose `name` field matches, `None` when absent. -/
def get_server (c : ServersConfig) (name : String) : Option Server :=
  (c.servers.map (fun p => p.2)).find? (fun s => s.name == name)

/-- `ServersConfig.get_servers`: the dict values in order. -/
def get_servers (c : ServersConfig) : List Server :=
  c.servers.map (fun p => p.2)

/-- `ServersConfig.add_server`: update the record found by `get_server`
in place, or insert `Server(name, user, address)` under key `name`. -/
def add_server (c : ServersConfig) (name : String) (user address : JVal) :
    ServersConfig :=
  match c.get_server name with
  | some _ => { c with servers := updateServers c.servers name user address }
  | none => { c with servers := dictSet c.servers name ⟨name, user, address⟩ }

/-- `ServersConfig.remove_server`: when `get_server` finds a record,
`del servers[name]` (which raises KeyError if `name` is not a dict key);
silently do nothing when no record matches. -/
def remove_server (c : ServersConfig) (name : String) :
    Except PyErr ServersConfig :=
  match c.get_server name with
  | some _ =>
    match dictDel c.servers name with
    | .error e => .error e
    | .ok l => .ok { c with servers := l }
  | none => .ok c

end ServersConfig

/-! ### The serializer (`json.dumps(..., indent=2)`) and the filesystem -/

/-- `n` spaces. -/
def spaces : Nat → String
  | 0 => ""
  | n + 1 => spaces n ++ " "

/-- JSON string escaping as `json.dumps` performs it for the escapes the
claims exercise (quote, backslash, newline, tab, carriage return; the
`\uXXXX` escaping of other control and non-ASCII characters is not
modelled — no claim serializes such a string). -/
def jsonQuote (s : String) : String :=
  "\"" ++ String.join (s.data.map (fun c =>
    if c == '\\' then "\\\\"
    else if c == '"' then "\\\""
    else if c == '\n' then "\\n"
    else if c == '\t' then "\\t"
    else if c == '\r' then "\\r"
    else String.mk [c])) ++ "\""

mutual

/-- `json.dumps(v, indent=2)` rendered at indentation depth `ind` (in
spaces): empty containers print flat, non-empty ones one item per line. -/
def jsonDumps (ind : Nat) : JVal → String
  | .jstr s => jsonQuote s
  | .jnum n => toString n
  | .jbool b => if b then "true" else "false"
  | .jnull => "null"
  | .jarr [] => "[]"
  | .jarr (x :: xs) =>
    "[\n" ++ jsonDumpsArr (ind + 2) (x :: xs) ++ "\n" ++ spaces ind ++ "]"
  | .jobj [] => "\x7b\x7d"
  | .jobj (p :: ps) =>
    "\x7b\n" ++ jsonDumpsObj (ind + 2) (p :: ps) ++ "\n" ++ spaces ind ++ "\x7d"

/-- Array items, one per line, comma-separated. -/
def jsonDumpsArr (ind : Nat) : List JVal → String
  | [] => ""
  | [x] => spaces ind ++ jsonDumps ind x
  | x :: y :: t =>
    spaces ind ++ jsonDumps ind x ++ ",\n" ++ jsonDumpsArr ind (y :: t)

/-- Object items, one `"key": value` per line, comma-separated. -/
def jsonDumpsObj (ind : Nat) : List (String × JVal) → String
  | [] => ""
  | [p] => spaces ind ++ jsonQuote p.1 ++ ": " ++ jsonDumps ind p.2
  | p :: q :: t =>
    spaces ind ++ jsonQuote p.1 ++ ": " ++ jsonDumps ind p.2 ++ ",\n" ++
      jsonDumpsObj ind (q :: t)

end

/-- `ServersConfig.save`: the text written to `self.path`,
`json.dumps(self.to_map(), indent=2) + "\n"`. -/
def ServersConfig.save_text (c : ServersConfig) : String :=
  jsonDumps 0 c.to_map ++ "\n"

/-- A shallow filesystem: the set of existing directories and a map from
file paths to contents. -/
structure FS where
  dirs : List String
  files : List (String × String)
deriving Repr

/-- `os.path.exists` specialised to the directory check of `init_config`. -/
def FS.dirAt (fs : FS) (p : String) : Bool := fs.dirs.any (fun d => d == p)

/-- Content of the file at `p`, if one exists. -/
def FS.fileAt (fs : FS) (p : String) : Option String :=
  (fs.files.find? (fun q => q.1 == p)).map (fun q => q.2)

/-- `open(p, mode='w')` followed by writing `content`: truncating
overwrite, creating the file when absent. -/
def FS.write (fs : FS) (p : String) (content : String) : FS :=
  { fs with files := dictSet fs.files p content }

/-- The fresh document `init_config` writes:
`{VERSION_KEY: VERSION, SERVERS_KEY: {}}`. -/
def config_template : JVal :=
  .jobj [(VERSION_KEY, .jstr VERSION), (SERVERS_KEY, .jobj [])]

/-- `init_config()`: create the config directory when missing; if the
servers file already exists return without touching it; otherwise write
`json.dumps(config_template, indent=2)` (via `writelines`, so no trailing
newline).  `home` is the process's HOME environment value. -/
def init_config (home : String) (fs : FS) : FS :=
  let fs1 :=
    if fs.dirAt (default_config_dir home) then fs
    else { fs with dirs := fs.dirs ++ [default_config_dir home] }
  if (fs1.fileAt (default_servers_config home)).isSome then fs1
  else fs1.write (default_servers_config home) (jsonDumps 0 config_template)

/-- `ServersConfig.save` run against the filesystem: overwrite
`self.path` with `save_text`. -/
def ServersConfig.save (c : ServersConfig) (fs : FS) : FS :=
  fs.write c.path c.save_text

/-! ### Registry well-formedness and operation sequences -/

/-- The registry invariant every Python execution maintains: dict keys are
unique (true of every dict) and each stored record's `name` field equals
its key. -/
def ServersConfig.WF (c : ServersConfig) : Prop :=
  (c.servers.map (fun p => p.1)).Nodup ∧ ∀ p ∈ c.servers, p.2.name = p.1

/-- One in-memory registry operation. -/
inductive RegOp where
  | add : String → JVal → JVal → RegOp
  | rem : String → RegOp

/-- Apply one operation; a KeyError from `remove_server` (impossible on a
well-formed registry) leaves the registry as it was. -/
def applyOp (c : ServersConfig) : RegOp → ServersConfig
  | .add n u a => c.add_server n u a
  | .rem n =>
    match c.remove_server n with
    | .ok c' => c'
    | .error _ => c

/-- Apply a sequence of operations in order. -/
def applyOps (c : ServersConfig) : List RegOp → ServersConfig
  | [] => c
  | op :: t => applyOps (applyOp c op) t

/-! ### Basic evaluation lemmas -/

theorem pyContains_jobj (kvs : List (String × JVal)) (k : String) :
    pyContains (.jobj kvs) k = .ok (kvs.any (fun p => p.1 == k)) := rfl

theorem pyIndex_jobj (kvs : List (String × JVal)) (k : String) :
    pyIndex (.jobj kvs) k =
      match kvs.find? (fun p => p.1 == k) with
      | some p => .ok p.2
      | none => .error .keyError := rfl

theorem pyContains_error {v : JVal} {k : String} {e : PyErr}
    (h : pyContains v k = .error e) : e = .typeError := by
  cases v <;> simp [pyContains] at h <;> exact h.symm

theorem pyIndex_error {v : JVal} {k : String} {e : PyErr}
    (h : pyIndex v k = .error e) : e = .typeError ∨ e = .keyError := by
  cases v with
  | jobj kvs =>
    simp only [pyIndex] at h
    cases hf : kvs.find? (fun p => p.1 == k) <;> rw [hf] at h <;> simp at h
    exact Or.inr h.symm
  | jstr s => simp [pyIndex] at h; exact Or.inl h.symm
  | jnum n => simp [pyIndex] at h; exact Or.inl h.symm
  | jbool b => simp [pyIndex] at h; exact Or.inl h.symm
  | jnull => simp [pyIndex] at h; exact Or.inl h.symm
  | jarr xs => simp [pyIndex] at h; exact Or.inl h.symm

theorem loadOne_error {v : JVal} {e : PyErr} (h : loadOne v = .error e) :
    e = .invalidConfig ("server missing required key: " ++ USER_KEY) ∨
    e = .invalidConfig ("server missing required key: " ++ ADDRESS_KEY) ∨
    e = .typeError ∨ e = .keyError := by
  unfold loadOne at h
  split at h
  next e1 heq =>
    injection h with h1
    subst h1
    exact Or.inr (Or.inr (Or.inl (pyContains_error heq)))
  next hasUser heq =>
    split at h
    next =>
      injection h with h1
      exact Or.inl h1.symm
    next =>
      split at h
      next e2 heq2 =>
        injection h with h1
        subst h1
        exact Or.inr (Or.inr (Or.inl (pyContains_error heq2)))
      next hasAddr heq2 =>
        split at h
        next =>
          injection h with h1
          exact Or.inr (Or.inl h1.symm)
        next =>
          split at h
          next e3 heq3 =>
            injection h with h1
            subst h1
            exact Or.inr (Or.inr (pyIndex_error heq3))
          next u heq3 =>
            split at h
            next e4 heq4 =>
              injection h with h1
              subst h1
              exact Or.inr (Or.inr (pyIndex_error heq4))
            next a heq4 => exact absurd h (by simp)

theorem loadServers_error {entries : List (String × JVal)}
    {acc : List (String × Server)} {e : PyErr}
    (h : loadServers entries acc = .error e) :
    e = .invalidConfig ("server missing required key: " ++ USER_KEY) ∨
    e = .invalidConfig ("server missing required key: " ++ ADDRESS_KEY) ∨
    e = .typeError ∨ e = .keyError := by
  induction entries generalizing acc with
  | nil => simp [loadServers] at h
  | cons p rest ih =>
    obtain ⟨name, server⟩ := p
    simp only [loadServers] at h
    cases hl : loadOne server with
    | error e1 =>
      rw [hl] at h
      injection h with h1
      subst h1
      exact loadOne_error hl
    | ok ua =>
      obtain ⟨u, a⟩ := ua
      rw [hl] at h
      exact ih h

/-- The Boolean validity test an entry value must pass for the loop to
accept it: a dict carrying both required keys. -/
def entry_ok (v : JVal) : Bool :=
  v.isObj && v.hasKey USER_KEY && v.hasKey ADDRESS_KEY

theorem loadOne_jobj_missing_user {kvs : List (String × JVal)}
    (h : kvs.any (fun p => p.1 == USER_KEY) = false) :
    loadOne (.jobj kvs) =
      .error (.invalidConfig ("server missing required key: " ++ USER_KEY)) := by
  simp [loadOne, pyContains, h]

theorem loadOne_jobj_missing_addr {kvs : List (String × JVal)}
    (hu : kvs.any (fun p => p.1 == USER_KEY) = true)
    (ha : kvs.any (fun p => p.1 == ADDRESS_KEY) = false) :
    loadOne (.jobj kvs) =
      .error (.invalidConfig ("server missing required key: " ++ ADDRESS_KEY)) := by
  simp [loadOne, pyContains, hu, ha]

theorem find?_isSome_of_any {α : Type} {l : List α} {p : α → Bool}
    (h : l.any p = true) : ∃ x, l.find? p = some x := by
  rw [List.any_eq_true] at h
  obtain ⟨x, hx, hpx⟩ := h
  rcases hf : l.find? p with _ | y
  · rw [List.find?_eq_none] at hf
    exact absurd hpx (hf x hx)
  · exact ⟨y, rfl⟩

theorem any_of_find?_eq_some {α : Type} {l : List α} {p : α → Bool} {x : α}
    (h : l.find? p = some x) : l.any p = true := by
  rw [List.any_eq_true]
  have h1 := List.mem_of_find?_eq_some h
  have h2 := List.find?_some h
  exact ⟨x, h1, h2⟩

theorem loadOne_jobj_ok {kvs : List (String × JVal)} {pu pa : String × JVal}
    (hu : kvs.find? (fun p => p.1 == USER_KEY) = some pu)
    (ha : kvs.find? (fun p => p.1 == ADDRESS_KEY) = some pa) :
    loadOne (.jobj kvs) = .ok (pu.2, pa.2) := by
  have hu' := any_of_find?_eq_some hu
  have ha' := any_of_find?_eq_some ha
  simp [loadOne, pyContains, pyIndex, hu, ha, hu', ha']

theorem loadOne_ok_of_entry_ok {v : JVal} (h : entry_ok v = true) :
    ∃ ua, loadOne v = .ok ua := by
  cases v <;>
    simp only [entry_ok, JVal.isObj, JVal.hasKey, Bool.and_eq_true,
      Bool.false_and, Bool.and_false] at h <;>
    try exact Bool.noConfusion h
  case jobj kvs =>
    obtain ⟨⟨_, hu⟩, ha⟩ := h
    obtain ⟨pu, hpu⟩ := find?_isSome_of_any hu
    obtain ⟨pa, hpa⟩ := find?_isSome_of_any ha
    exact ⟨(pu.2, pa.2), loadOne_jobj_ok hpu hpa⟩

theorem loadServers_ok {entries : List (String × JVal)}
    (h : ∀ p ∈ entries, entry_ok p.2 = true) (acc : List (String × Server)) :
    ∃ res, loadServers entries acc = .ok res := by
  induction entries generalizing acc with
  | nil => exact ⟨acc, rfl⟩
  | cons p rest ih =>
    obtain ⟨name, server⟩ := p
    obtain ⟨⟨u, a⟩, hl⟩ := loadOne_ok_of_entry_ok (h (name, server) (by simp))
    obtain ⟨res, hres⟩ := ih (fun q hq => h q (List.mem_cons_of_mem _ hq))
      (dictSet acc name ⟨name, u, a⟩)
    exact ⟨res, by simp only [loadServers, hl]; exact hres⟩

theorem loadServers_append {good rest : List (String × JVal)}
    (h : ∀ p ∈ good, entry_ok p.2 = true) (acc : List (String × Server)) :
    ∃ acc', loadServers (good ++ rest) acc = loadServers rest acc' := by
  induction good generalizing acc with
  | nil => exact ⟨acc, rfl⟩
  | cons p t ih =>
    obtain ⟨name, server⟩ := p
    obtain ⟨⟨u, a⟩, hl⟩ := loadOne_ok_of_entry_ok (h (name, server) (by simp))
    obtain ⟨acc', hacc⟩ := ih (fun q hq => h q (List.mem_cons_of_mem _ hq))
      (dictSet acc name ⟨name, u, a⟩)
    exact ⟨acc', by simp only [List.cons_append, loadServers, hl]; exact hacc⟩

theorem checkServers_error {path : String} {config : JVal} {e : PyErr}
    (h : checkServers path config = .error e) :
    e = .invalidConfig ("malformed or missing " ++ SERVERS_KEY ++ " from config") ∨
    e = .invalidConfig ("server missing required key: " ++ USER_KEY) ∨
    e = .invalidConfig ("server missing required key: " ++ ADDRESS_KEY) ∨
    e = .typeError ∨ e = .keyError := by
  unfold checkServers at h
  split at h
  next e1 heq =>
    injection h with h1
    subst h1
    exact Or.inr (Or.inr (Or.inr (Or.inl (pyContains_error heq))))
  next hasS heq =>
    split at h
    next =>
      injection h with h1
      exact Or.inl h1.symm
    next =>
      split at h
      next e2 heq2 =>
        injection h with h1
        subst h1
        exact Or.inr (Or.inr (Or.inr (pyIndex_error heq2)))
      next sv heq2 =>
        split at h
        next entries =>
          split at h
          next e3 heq3 =>
            injection h with h1
            subst h1
            exact Or.inr (loadServers_error heq3)
          next => exact absurd h (by simp)
        next =>
          injection h with h1
          exact Or.inl h1.symm

theorem gsc_jobj_no_version {path : String} {kvs : List (String × JVal)}
    (h : kvs.any (fun p => p.1 == VERSION_KEY) = false) :
    get_servers_config path (.jobj kvs) =
      .error (.invalidConfig "unsupported config version") := by
  simp [get_servers_config, pyContains, h]

theorem gsc_jobj_version_bad {path : String} {kvs : List (String × JVal)}
    {pv : String × JVal}
    (hf : kvs.find? (fun p => p.1 == VERSION_KEY) = some pv)
    (hne : pv.2 ≠ .jstr VERSION) :
    get_servers_config path (.jobj kvs) =
      .error (.invalidConfig "unsupported config version") := by
  have h' := any_of_find?_eq_some hf
  have hq : pyEqStr pv.2 VERSION = false := by
    cases hv : pv.2 <;> simp [pyEqStr]
    next s =>
      intro hs
      exact hne (by rw [hv, hs])
  simp [get_servers_config, pyContains, pyIndex, h', hf, hq]

theorem gsc_jobj_version_good {path : String} {kvs : List (String × JVal)}
    {pv : String × JVal}
    (hf : kvs.find? (fun p => p.1 == VERSION_KEY) = some pv)
    (hv : pv.2 = .jstr VERSION) :
    get_servers_config path (.jobj kvs) = checkServers path (.jobj kvs) := by
  have h' := any_of_find?_eq_some hf
  have hq : pyEqStr pv.2 VERSION = true := by
    rw [hv]; simp [pyEqStr]
  simp [get_servers_config, pyContains, pyIndex, h', hf, hq]

theorem find?_eq_none_of_any_eq_false {α : Type} {l : List α} {p : α → Bool}
    (h : l.any p = false) : l.find? p = none := by
  rw [List.find?_eq_none]
  intro x hx hpx
  have hT : l.any p = true := List.any_eq_true.mpr ⟨x, hx, hpx⟩
  rw [h] at hT
  exact Bool.noConfusion hT

theorem any_eq_false_of_find?_eq_none {α : Type} {l : List α} {p : α → Bool}
    (h : l.find? p = none) : l.any p = false := by
  cases hA : l.any p with
  | false => rfl
  | true =>
    obtain ⟨x, hx⟩ := find?_isSome_of_any hA
    rw [h] at hx
    exact Option.noConfusion hx

/-- CLAIM C5: for every parsed config document (a JSON object), load
fails with InvalidConfig reason "unsupported config version" if and only
if the version key is absent or its value differs from the string "1";
in particular a document with version "2" fails with that error. -/
theorem spec_c5_version_check (path : String) (kvs : List (String × JVal)) :
    (get_servers_config path (.jobj kvs) =
        .error (.invalidConfig "unsupported config version") ↔
      (jlookup kvs VERSION_KEY = none ∨
        ∀ v, jlookup kvs VERSION_KEY = some v → v ≠ .jstr VERSION)) ∧
    get_servers_config path
        (.jobj [(VERSION_KEY, .jstr "2"), (SERVERS_KEY, .jobj [])]) =
      .error (.invalidConfig "unsupported config version") := by
  constructor
  · constructor
    · intro h
      by_contra hc
      push_neg at hc
      obtain ⟨h1, v, hv, rfl⟩ := hc
      obtain ⟨pv, hf, hpv⟩ : ∃ pv, kvs.find? (fun p => p.1 == VERSION_KEY) = some pv ∧
          pv.2 = .jstr VERSION := by
        unfold jlookup at hv
        cases hff : kvs.find? (fun p => p.1 == VERSION_KEY) with
        | none => rw [hff] at hv; exact Option.noConfusion hv
        | some pv =>
          rw [hff] at hv
          simp only [Option.map_some'] at hv
          exact ⟨pv, rfl, Option.some.inj hv⟩
      rw [gsc_jobj_version_good hf hpv] at h
      rcases checkServers_error h with h' | h' | h' | h' | h'
      · injection h' with hs; exact absurd hs (by decide)
      · injection h' with hs; exact absurd hs (by decide)
      · injection h' with hs; exact absurd hs (by decide)
      · exact PyErr.noConfusion h'
      · exact PyErr.noConfusion h'
    · intro h
      rcases h with h | h
      · exact gsc_jobj_no_version (any_eq_false_of_find?_eq_none
          (by unfold jlookup at h; exact Option.map_eq_none'.mp h))
      · cases hf : kvs.find? (fun p => p.1 == VERSION_KEY) with
        | none => exact gsc_jobj_no_version (any_eq_false_of_find?_eq_none hf)
        | some pv =>
          exact gsc_jobj_version_bad hf (h pv.2 (by simp [jlookup, hf]))
  · rfl

theorem jlookup_eq_some {kvs : List (String × JVal)} {k : String} {v : JVal}
    (h : jlookup kvs k = some v) :
    ∃ p, kvs.find? (fun q => q.1 == k) = some p ∧ p.2 = v := by
  unfold jlookup at h
  cases hf : kvs.find? (fun q => q.1 == k) with
  | none => rw [hf] at h; exact Option.noConfusion h
  | some p =>
    rw [hf] at h
    simp only [Option.map_some'] at h
    exact ⟨p, rfl, Option.some.inj h⟩

theorem cs_jobj_no_servers {path : String} {kvs : List (String × JVal)}
    (h : kvs.any (fun p => p.1 == SERVERS_KEY) = false) :
    checkServers path (.jobj kvs) =
      .error (.invalidConfig ("malformed or missing " ++ SERVERS_KEY ++ " from config")) := by
  simp [checkServers, pyContains, h]

theorem cs_jobj_servers_nonobj {path : String} {kvs : List (String × JVal)}
    {ps : String × JVal}
    (hf : kvs.find? (fun p => p.1 == SERVERS_KEY) = some ps)
    (hno : ps.2.isObj = false) :
    checkServers path (.jobj kvs) =
      .error (.invalidConfig ("malformed or missing " ++ SERVERS_KEY ++ " from config")) := by
  have h' := any_of_find?_eq_some hf
  cases hsv : ps.2 with
  | jobj kvs2 => rw [hsv] at hno; exact absurd hno (by simp [JVal.isObj])
  | jstr s => simp [checkServers, pyContains, pyIndex, h', hf, hsv]
  | jnum n => simp [checkServers, pyContains, pyIndex, h', hf, hsv]
  | jbool b => simp [checkServers, pyContains, pyIndex, h', hf, hsv]
  | jnull => simp [checkServers, pyContains, pyIndex, h', hf, hsv]
  | jarr xs => simp [checkServers, pyContains, pyIndex, h', hf, hsv]

theorem cs_jobj_servers_obj {path : String} {kvs : List (String × JVal)}
    {ps : String × JVal} {entries : List (String × JVal)}
    (hf : kvs.find? (fun p => p.1 == SERVERS_KEY) = some ps)
    (hobj : ps.2 = .jobj entries) :
    checkServers path (.jobj kvs) =
      match loadServers entries [] with
      | .error e => .error e
      | .ok servers => .ok ⟨path, servers⟩ := by
  have h' := any_of_find?_eq_some hf
  simp [checkServers, pyContains, pyIndex, h', hf, hobj]

/-- CLAIM C6: for every parsed config document with version "1", load
fails with InvalidConfig reason "malformed or missing servers from
config" if and only if the servers key is absent or its value is not an
object; in particular a document whose servers value is a JSON array
fails with that error. -/
theorem spec_c6_servers_check (path : String) (kvs : List (String × JVal))
    (hv : jlookup kvs VERSION_KEY = some (.jstr VERSION)) :
    (get_servers_config path (.jobj kvs) =
        .error (.invalidConfig "malformed or missing servers from config") ↔
      (jlookup kvs SERVERS_KEY = none ∨
        ∀ v, jlookup kvs SERVERS_KEY = some v → v.isObj = false)) ∧
    get_servers_config path
        (.jobj [(VERSION_KEY, .jstr "1"), (SERVERS_KEY, .jarr [])]) =
      .error (.invalidConfig "malformed or missing servers from config") := by
  have hmsg : ("malformed or missing " ++ SERVERS_KEY ++ " from config") =
      "malformed or missing servers from config" := rfl
  obtain ⟨pv, hfv, hpv⟩ := jlookup_eq_some hv
  have hgv := @gsc_jobj_version_good path kvs pv hfv hpv
  constructor
  · rw [hgv]
    constructor
    · intro h
      by_contra hc
      push_neg at hc
      obtain ⟨h1, v, hsv, hvo⟩ := hc
      obtain ⟨ps, hfs, hps⟩ := jlookup_eq_some hsv
      have hvt : v.isObj = true := by revert hvo; cases v.isObj <;> simp
      cases v with
      | jobj entries =>
        rw [cs_jobj_servers_obj hfs hps] at h
        cases hls : loadServers entries [] with
        | error e =>
          rw [hls] at h
          injection h with h1
          have := loadServers_error hls
          subst h1
          rcases this with h' | h' | h' | h' <;> (try injection h' with hs) <;>
            first
            | exact absurd hs (by decide)
            | exact PyErr.noConfusion h'
        | ok res =>
          rw [hls] at h
          exact Except.noConfusion h
      | jstr s => exact Bool.noConfusion hvt
      | jnum n => exact Bool.noConfusion hvt
      | jbool b => exact Bool.noConfusion hvt
      | jnull => exact Bool.noConfusion hvt
      | jarr xs => exact Bool.noConfusion hvt
    · intro h
      rw [← hmsg]
      rcases h with h | h
      · exact cs_jobj_no_servers (any_eq_false_of_find?_eq_none
          (by unfold jlookup at h; exact Option.map_eq_none'.mp h))
      · cases hfs : kvs.find? (fun p => p.1 == SERVERS_KEY) with
        | none => exact cs_jobj_no_servers (any_eq_false_of_find?_eq_none hfs)
        | some ps =>
          exact cs_jobj_servers_nonobj hfs (h ps.2 (by simp [jlookup, hfs]))
  · rfl

/-- A version-1 config document carrying the given `servers` entries. -/
def doc1 (entries : List (String × JVal)) : JVal :=
  .jobj [(VERSION_KEY, .jstr VERSION), (SERVERS_KEY, .jobj entries)]

theorem gsc_doc1 (path : String) (entries : List (String × JVal)) :
    get_servers_config path (doc1 entries) =
      match loadServers entries [] with
      | .error e => .error e
      | .ok servers => .ok ⟨path, servers⟩ := rfl

/-- CLAIM C2: in a version-1 document whose entries before some entry are
valid mappings, an entry value that is a mapping missing user fails load
with InvalidConfig "server missing required key: user" (user is checked
before address, so an entry missing both reports user); one carrying
user but missing address fails naming address; and when every entry
carries both keys load succeeds, so no such error is raised. -/
theorem spec_c2_required_keys (path : String) (good : List (String × JVal))
    (k : String) (v : JVal) (rest : List (String × JVal))
    (hgood : ∀ p ∈ good, entry_ok p.2 = true) (hv : v.isObj = true) :
    (v.hasKey USER_KEY = false →
      get_servers_config path (doc1 (good ++ (k, v) :: rest)) =
        .error (.invalidConfig "server missing required key: user")) ∧
    (v.hasKey USER_KEY = true → v.hasKey ADDRESS_KEY = false →
      get_servers_config path (doc1 (good ++ (k, v) :: rest)) =
        .error (.invalidConfig "server missing required key: address")) ∧
    (∀ entries : List (String × JVal), (∀ p ∈ entries, entry_ok p.2 = true) →
      ∃ c, get_servers_config path (doc1 entries) = .ok c) := by
  obtain ⟨kvs, rfl⟩ : ∃ kvs, v = .jobj kvs := by
    cases v <;> simp [JVal.isObj] at hv
    exact ⟨_, rfl⟩
  refine ⟨?_, ?_, ?_⟩
  · intro hnu
    rw [gsc_doc1]
    obtain ⟨acc', hacc⟩ :=
      @loadServers_append good ((k, .jobj kvs) :: rest) hgood []
    rw [hacc]
    have hnu' : kvs.any (fun p => p.1 == USER_KEY) = false := hnu
    simp only [loadServers, loadOne_jobj_missing_user hnu']
    rfl
  · intro hu hna
    rw [gsc_doc1]
    obtain ⟨acc', hacc⟩ :=
      @loadServers_append good ((k, .jobj kvs) :: rest) hgood []
    rw [hacc]
    have hu' : kvs.any (fun p => p.1 == USER_KEY) = true := hu
    have hna' : kvs.any (fun p => p.1 == ADDRESS_KEY) = false := hna
    simp only [loadServers, loadOne_jobj_missing_addr hu' hna']
    rfl
  · intro entries hent
    rw [gsc_doc1]
    obtain ⟨res, hres⟩ := loadServers_ok hent []
    exact ⟨⟨path, res⟩, by rw [hres]⟩

/-- Witness for CLAIM C2: a one-entry document whose entry has `address`
but no `user` fails naming `user`. -/
theorem spec_c2_required_keys_witness :
    get_servers_config "p" (doc1 [("a", .jobj [("address", .jstr "x")])]) =
      .error (.invalidConfig "server missing required key: user") :=
  (spec_c2_required_keys "p" [] "a" (.jobj [("address", .jstr "x")]) []
    (fun p hp => absurd hp (List.not_mem_nil p)) rfl).1 rfl

/-! ### Registry lemmas -/

theorem get_server_some_name {c : ServersConfig} {n : String} {s : Server}
    (h : c.get_server n = some s) : s.name = n := by
  have hp := List.find?_some h
  exact beq_iff_eq.mp hp

theorem get_server_exists {c : ServersConfig} {n : String} {s : Server}
    (h : c.get_server n = some s) : ∃ p ∈ c.servers, p.2.name = n := by
  have hm := List.mem_of_find?_eq_some h
  rw [List.mem_map] at hm
  obtain ⟨p, hp, hps⟩ := hm
  exact ⟨p, hp, by rw [hps]; exact get_server_some_name h⟩

theorem get_server_none {c : ServersConfig} {n : String}
    (h : c.get_server n = none) : ∀ p ∈ c.servers, p.2.name ≠ n := by
  intro p hp
  unfold ServersConfig.get_server at h
  rw [List.find?_eq_none] at h
  have := h p.2 (List.mem_map.mpr ⟨p, hp, rfl⟩)
  simpa using this

theorem updateServers_length (l : List (String × Server)) (n : String)
    (u a : JVal) : (updateServers l n u a).length = l.length := by
  induction l with
  | nil => rfl
  | cons p t ih =>
    obtain ⟨k, s⟩ := p
    simp only [updateServers]
    split <;> simp [ih]

theorem updateServers_map_fst (l : List (String × Server)) (n : String)
    (u a : JVal) :
    (updateServers l n u a).map (fun p => p.1) = l.map (fun p => p.1) := by
  induction l with
  | nil => rfl
  | cons p t ih =>
    obtain ⟨k, s⟩ := p
    simp only [updateServers]
    split <;> simp [ih]

theorem updateServers_names {l : List (String × Server)} {n : String}
    {u a : JVal} (hnm : ∀ p ∈ l, p.2.name = p.1) :
    ∀ q ∈ updateServers l n u a, q.2.name = q.1 := by
  induction l with
  | nil => intro q hq; exact absurd hq (List.not_mem_nil q)
  | cons p t ih =>
    obtain ⟨k, s⟩ := p
    intro q hq
    simp only [updateServers] at hq
    by_cases hs : (s.name == n) = true
    · rw [if_pos hs] at hq
      cases hq with
      | head => exact hnm (k, s) (by simp)
      | tail _ hq2 => exact hnm q (List.mem_cons_of_mem _ hq2)
    · rw [if_neg hs] at hq
      cases hq with
      | head => exact hnm (k, s) (by simp)
      | tail _ hq2 =>
        exact ih (fun r hr => hnm r (List.mem_cons_of_mem _ hr)) q hq2

theorem get_server_after_update {l : List (String × Server)} {n : String}
    {s : Server} (u a : JVal)
    (h : (l.map (fun p => p.2)).find? (fun t => t.name == n) = some s) :
    ((updateServers l n u a).map (fun p => p.2)).find? (fun t => t.name == n) =
      some ⟨s.name, u, a⟩ := by
  induction l with
  | nil => simp at h
  | cons p t ih =>
    obtain ⟨k, s0⟩ := p
    by_cases hs : (s0.name == n) = true
    · rw [List.map_cons,
        List.find?_cons_of_pos (p := fun x : Server => x.name == n) _ hs] at h
      have hss : s0 = s := Option.some.inj h
      subst hss
      simp only [updateServers, if_pos hs, List.map_cons]
      exact List.find?_cons_of_pos (p := fun x : Server => x.name == n) _ hs
    · rw [List.map_cons,
        List.find?_cons_of_neg (p := fun x : Server => x.name == n) _ hs] at h
      simp only [updateServers, if_neg hs, List.map_cons]
      rw [List.find?_cons_of_neg (p := fun x : Server => x.name == n) _ hs]
      exact ih h

theorem any_fst_eq_false {l : List (String × Server)} {n : String}
    (h : ∀ p ∈ l, p.1 ≠ n) : l.any (fun p => p.1 == n) = false := by
  cases hA : l.any (fun p => p.1 == n) with
  | false => rfl
  | true =>
    rw [List.any_eq_true] at hA
    obtain ⟨p, hp, hpn⟩ := hA
    exact absurd (beq_iff_eq.mp hpn) (h p hp)

theorem add_server_of_none {c : ServersConfig} {n : String} (u a : JVal)
    (hwf : c.WF) (hg : c.get_server n = none) :
    (c.add_server n u a).servers = c.servers ++ [(n, ⟨n, u, a⟩)] := by
  have hkeys : ∀ p ∈ c.servers, p.1 ≠ n := by
    intro p hp
    have := get_server_none hg p hp
    rw [hwf.2 p hp] at this
    exact this
  simp only [ServersConfig.add_server, hg, dictSet, any_fst_eq_false hkeys,
    Bool.false_eq_true, if_false]

theorem get_server_add {c : ServersConfig} (n : String) (u a : JVal)
    (hwf : c.WF) : (c.add_server n u a).get_server n = some ⟨n, u, a⟩ := by
  cases hg : c.get_server n with
  | some s =>
    have hname := get_server_some_name hg
    simp only [ServersConfig.add_server, hg]
    show ((updateServers c.servers n u a).map (fun p => p.2)).find?
        (fun t => t.name == n) = some ⟨n, u, a⟩
    rw [get_server_after_update u a hg, hname]
  | none =>
    rw [ServersConfig.get_server, add_server_of_none u a hwf hg]
    rw [List.map_append, List.find?_append]
    have hg' : (c.servers.map (fun p => p.2)).find?
        (fun t => t.name == n) = none := hg
    rw [hg']
    simp

theorem add_server_WF {c : ServersConfig} (n : String) (u a : JVal)
    (hwf : c.WF) : (c.add_server n u a).WF := by
  cases hg : c.get_server n with
  | some s =>
    simp only [ServersConfig.add_server, hg]
    constructor
    · show ((updateServers c.servers n u a).map (fun p => p.1)).Nodup
      rw [updateServers_map_fst]
      exact hwf.1
    · exact updateServers_names hwf.2
  | none =>
    have happ := add_server_of_none u a hwf hg
    constructor
    · rw [happ, List.map_append]
      rw [List.nodup_append]
      refine ⟨hwf.1, List.nodup_singleton n, ?_⟩
      intro x hx hx2
      simp only [List.map_cons, List.map_nil, List.mem_singleton] at hx2
      subst hx2
      rw [List.mem_map] at hx
      obtain ⟨p, hp, hpx⟩ := hx
      have := get_server_none hg p hp
      rw [hwf.2 p hp] at this
      exact this hpx
    · rw [happ]
      intro p hp
      rcases List.mem_append.mp hp with hp1 | hp2
      · exact hwf.2 p hp1
      · simp only [List.mem_singleton] at hp2
        subst hp2
        rfl

theorem filter_name_one {l : List (String × Server)} {n : String}
    (hnd : (l.map (fun p => p.1)).Nodup) (hnm : ∀ p ∈ l, p.2.name = p.1)
    (hex : ∃ p ∈ l, p.2.name = n) :
    (l.filter (fun p => p.2.name == n)).length = 1 := by
  induction l with
  | nil => simp at hex
  | cons p t ih =>
    rw [List.map_cons, List.nodup_cons] at hnd
    obtain ⟨hp1, hndt⟩ := hnd
    by_cases hpn : p.2.name = n
    · have hp1n : p.1 = n := by rw [← hnm p (by simp)]; exact hpn
      have ht : ∀ q ∈ t, ¬((fun r : String × Server => r.2.name == n) q = true) := by
        intro q hq hqb
        have hqn : q.2.name = n := beq_iff_eq.mp hqb
        have hq1 : q.1 = n := by rw [← hnm q (List.mem_cons_of_mem _ hq)]; exact hqn
        exact hp1 (by rw [hp1n, ← hq1]; exact List.mem_map.mpr ⟨q, hq, rfl⟩)
      rw [List.filter_cons_of_pos (by simp [hpn]),
        List.filter_eq_nil_iff.mpr ht]
      rfl
    · have hte : ∃ q ∈ t, q.2.name = n := by
        obtain ⟨q, hq, hqn⟩ := hex
        cases hq with
        | head => exact absurd hqn hpn
        | tail _ hq2 => exact ⟨q, hq2, hqn⟩
      rw [List.filter_cons_of_neg (by simp [hpn])]
      exact ih hndt (fun q hq => hnm q (List.mem_cons_of_mem _ hq)) hte

/-- CLAIM C3: addOrUpdate never errors (it is a total function here): on
a well-formed registry, updating an existing name keeps the record count
and leaves the record under that name holding the new user/address;
adding a fresh name appends exactly one new record; and two successive
calls with the same name leave exactly one record under that name,
holding the second call's values. -/
theorem spec_c3_add_or_update (c : ServersConfig) (n : String)
    (u a u2 a2 : JVal) (hwf : c.WF) :
    (∀ s, c.get_server n = some s →
      (c.add_server n u a).servers.length = c.servers.length ∧
      (c.add_server n u a).get_server n = some ⟨n, u, a⟩) ∧
    (c.get_server n = none →
      (c.add_server n u a).servers = c.servers ++ [(n, ⟨n, u, a⟩)] ∧
      (c.add_server n u a).get_server n = some ⟨n, u, a⟩) ∧
    (((c.add_server n u a).add_server n u2 a2).get_server n =
        some ⟨n, u2, a2⟩ ∧
      (((c.add_server n u a).add_server n u2 a2).servers.filter
          (fun p => p.2.name == n)).length = 1) := by
  refine ⟨?_, ?_, ?_, ?_⟩
  · intro s hg
    constructor
    · simp only [ServersConfig.add_server, hg]
      exact updateServers_length c.servers n u a
    · exact get_server_add n u a hwf
  · intro hg
    exact ⟨add_server_of_none u a hwf hg, get_server_add n u a hwf⟩
  · exact get_server_add n u2 a2 (add_server_WF n u a hwf)
  · have hwf2 := add_server_WF n u2 a2 (add_server_WF n u a hwf)
    have hg2 := get_server_add n u2 a2 (add_server_WF n u a hwf)
    exact filter_name_one hwf2.1 hwf2.2 (get_server_exists hg2)

/-- Witness for CLAIM C3: two adds under the same name on an empty
registry leave one record carrying the second call's values. -/
theorem spec_c3_add_or_update_witness :
    (((ServersConfig.mk "p" []).add_server "box" (.jstr "a") (.jstr "b")).add_server
        "box" (.jstr "c") (.jstr "d")).get_server "box" =
      some ⟨"box", .jstr "c", .jstr "d"⟩ ∧
    ((((ServersConfig.mk "p" []).add_server "box" (.jstr "a") (.jstr "b")).add_server
        "box" (.jstr "c") (.jstr "d")).servers.filter
      (fun p => p.2.name == "box")).length = 1 :=
  (spec_c3_add_or_update ⟨"p", []⟩ "box" (.jstr "a") (.jstr "b") (.jstr "c")
    (.jstr "d") ⟨List.nodup_nil, fun p hp => absurd hp (List.not_mem_nil p)⟩).2.2

theorem remove_decomp {l : List (String × Server)} {n : String} {s : Server}
    (hnm : ∀ p ∈ l, p.2.name = p.1)
    (h : (l.map (fun p => p.2)).find? (fun t => t.name == n) = some s) :
    ∃ l1 l2, l = l1 ++ (n, s) :: l2 ∧ (∀ p ∈ l1, p.1 ≠ n) ∧
      l.eraseP (fun p => p.1 == n) = l1 ++ l2 ∧
      l.any (fun p => p.1 == n) = true := by
  induction l with
  | nil => simp at h
  | cons p t ih =>
    obtain ⟨k, s0⟩ := p
    by_cases hs : (s0.name == n) = true
    · rw [List.map_cons,
        List.find?_cons_of_pos (p := fun x : Server => x.name == n) _ hs] at h
      have hss : s0 = s := Option.some.inj h
      have hk : k = n := by
        have h2 : s0.name = k := hnm (k, s0) (by simp)
        rw [← h2]
        exact beq_iff_eq.mp hs
      subst hss
      subst hk
      refine ⟨[], t, by simp, by simp, ?_, ?_⟩
      · rw [List.eraseP_cons_of_pos (by simp)]
        rfl
      · simp
    · rw [List.map_cons,
        List.find?_cons_of_neg (p := fun x : Server => x.name == n) _ hs] at h
      have hk : ¬((k == n) = true) := by
        intro hkb
        have hsn : s0.name = n := by
          rw [hnm (k, s0) (by simp)]
          exact beq_iff_eq.mp hkb
        exact hs (beq_iff_eq.mpr hsn)
      obtain ⟨l1, l2, hl, hl1, herase, hany⟩ :=
        ih (fun q hq => hnm q (List.mem_cons_of_mem _ hq)) h
      refine ⟨(k, s0) :: l1, l2, ?_, ?_, ?_, ?_⟩
      · rw [List.cons_append, hl]
      · intro q hq
        cases hq with
        | head => exact fun hq1 => hk (beq_iff_eq.mpr hq1)
        | tail _ hq2 => exact hl1 q hq2
      · rw [List.eraseP_cons_of_neg
            (p := fun q : String × Server => q.1 == n) hk, herase,
          List.cons_append]
      · simp only [List.any_cons, hany, Bool.or_true]

/-- CLAIM C7: on a well-formed registry remove never raises: removing an
absent name returns the registry entirely unchanged, and removing a
present name deletes exactly that record, leaving every other record (the
prefix l1 and suffix l2) unchanged. -/
theorem spec_c7_remove (c : ServersConfig) (n : String) (hwf : c.WF) :
    (c.get_server n = none → c.remove_server n = .ok c) ∧
    (∀ s, c.get_server n = some s →
      ∃ l1 l2, c.servers = l1 ++ (n, s) :: l2 ∧ (∀ p ∈ l1, p.1 ≠ n) ∧
        c.remove_server n = .ok ⟨c.path, l1 ++ l2⟩) ∧
    ∃ c', c.remove_server n = .ok c' := by
  have hnone : c.get_server n = none → c.remove_server n = .ok c := by
    intro hg
    simp only [ServersConfig.remove_server, hg]
  have hsome : ∀ s, c.get_server n = some s →
      ∃ l1 l2, c.servers = l1 ++ (n, s) :: l2 ∧ (∀ p ∈ l1, p.1 ≠ n) ∧
        c.remove_server n = .ok ⟨c.path, l1 ++ l2⟩ := by
    intro s hg
    obtain ⟨l1, l2, hl, hl1, herase, hany⟩ := remove_decomp hwf.2 hg
    refine ⟨l1, l2, hl, hl1, ?_⟩
    simp only [ServersConfig.remove_server, hg, dictDel, hany, if_true]
    rw [herase]
  refine ⟨hnone, hsome, ?_⟩
  cases hg : c.get_server n with
  | none => exact ⟨c, hnone hg⟩
  | some s =>
    obtain ⟨l1, l2, _, _, hok⟩ := hsome s hg
    exact ⟨⟨c.path, l1 ++ l2⟩, hok⟩

/-- Witness for CLAIM C7: removing a missing name is accepted and leaves
the registry unchanged; removing a present name deletes exactly it. -/
theorem spec_c7_remove_witness :
    (ServersConfig.mk "p" [("a", ⟨"a", .jstr "u", .jstr "x"⟩)]).remove_server
        "missing" = .ok (ServersConfig.mk "p" [("a", ⟨"a", .jstr "u", .jstr "x"⟩)]) ∧
    ∃ c', (ServersConfig.mk "p" [("a", ⟨"a", .jstr "u", .jstr "x"⟩)]).remove_server
        "a" = .ok c' := by
  have hwf : (ServersConfig.mk "p" [("a", ⟨"a", .jstr "u", .jstr "x"⟩)]).WF := by
    constructor
    · simp
    · intro p hp
      simp only [List.mem_singleton] at hp
      subst hp
      rfl
  constructor
  · exact (spec_c7_remove (ServersConfig.mk "p"
      [("a", ⟨"a", .jstr "u", .jstr "x"⟩)]) "missing" hwf).1 rfl
  · exact (spec_c7_remove (ServersConfig.mk "p"
      [("a", ⟨"a", .jstr "u", .jstr "x"⟩)]) "a" hwf).2.2

theorem dictSet_names {acc : List (String × Server)} {n : String}
    {u a : JVal} (hnm : ∀ p ∈ acc, p.2.name = p.1) :
    ∀ q ∈ dictSet acc n (⟨n, u, a⟩ : Server), q.2.name = q.1 := by
  intro q hq
  unfold dictSet at hq
  split at hq
  · rw [List.mem_map] at hq
    obtain ⟨p, hp, hpq⟩ := hq
    by_cases hpn : (p.1 == n) = true
    · rw [if_pos hpn] at hpq
      subst hpq
      rfl
    · rw [if_neg hpn] at hpq
      subst hpq
      exact hnm p hp
  · rcases List.mem_append.mp hq with h1 | h2
    · exact hnm q h1
    · simp only [List.mem_singleton] at h2
      subst h2
      rfl

theorem dictSet_map_fst_of_mem {acc : List (String × Server)} {n : String}
    (v : Server) (h : acc.any (fun p => p.1 == n) = true) :
    (dictSet acc n v).map (fun p => p.1) = acc.map (fun p => p.1) := by
  unfold dictSet
  rw [if_pos h, List.map_map]
  apply List.map_congr_left
  intro p hp
  by_cases hpn : (p.1 == n) = true
  · simp only [Function.comp_apply, if_pos hpn]
    exact (beq_iff_eq.mp hpn).symm
  · simp only [Function.comp_apply, if_neg hpn]

theorem dictSet_nodup {acc : List (String × Server)} {n : String}
    (v : Server) (hnd : (acc.map (fun p => p.1)).Nodup) :
    ((dictSet acc n v).map (fun p => p.1)).Nodup := by
  cases hA : acc.any (fun p => p.1 == n) with
  | true => rw [dictSet_map_fst_of_mem v hA]; exact hnd
  | false =>
    unfold dictSet
    rw [hA]
    simp only [Bool.false_eq_true, if_false, List.map_append]
    rw [List.nodup_append]
    refine ⟨hnd, by simp, ?_⟩
    intro y hy hy2
    simp only [List.map_cons, List.map_nil, List.mem_singleton] at hy2
    rw [List.mem_map] at hy
    obtain ⟨p, hp, hpy⟩ := hy
    have hT : acc.any (fun q => q.1 == n) = true :=
      List.any_eq_true.mpr ⟨p, hp, beq_iff_eq.mpr (by rw [hpy, hy2])⟩
    rw [hA] at hT
    exact Bool.noConfusion hT

theorem loadServers_WF {entries : List (String × JVal)}
    {acc res : List (String × Server)}
    (hnd : (acc.map (fun p => p.1)).Nodup)
    (hnm : ∀ p ∈ acc, p.2.name = p.1)
    (h : loadServers entries acc = .ok res) :
    (res.map (fun p => p.1)).Nodup ∧ ∀ q ∈ res, q.2.name = q.1 := by
  induction entries generalizing acc with
  | nil =>
    simp only [loadServers] at h
    injection h with h1
    subst h1
    exact ⟨hnd, hnm⟩
  | cons p rest ih =>
    obtain ⟨name, server⟩ := p
    simp only [loadServers] at h
    cases hl : loadOne server with
    | error e => rw [hl] at h; exact Except.noConfusion h
    | ok ua =>
      obtain ⟨u, a⟩ := ua
      rw [hl] at h
      exact ih (dictSet_nodup _ hnd) (dictSet_names hnm) h

theorem checkServers_ok {path : String} {config : JVal} {c' : ServersConfig}
    (h : checkServers path config = .ok c') :
    c'.path = path ∧ ∃ entries, loadServers entries [] = .ok c'.servers := by
  unfold checkServers at h
  split at h
  next => exact Except.noConfusion h
  next =>
    split at h
    next => exact Except.noConfusion h
    next =>
      split at h
      next => exact Except.noConfusion h
      next sv heq2 =>
        split at h
        next entries =>
          split at h
          next => exact Except.noConfusion h
          next servers heq3 =>
            injection h with h1
            subst h1
            exact ⟨rfl, entries, heq3⟩
        next => exact Except.noConfusion h

theorem gsc_ok {path : String} {config : JVal} {c' : ServersConfig}
    (h : get_servers_config path config = .ok c') :
    c'.path = path ∧ ∃ entries, loadServers entries [] = .ok c'.servers := by
  unfold get_servers_config at h
  split at h
  next => exact Except.noConfusion h
  next =>
    split at h
    next => exact Except.noConfusion h
    next =>
      split at h
      next => exact Except.noConfusion h
      next =>
        split at h
        next => exact Except.noConfusion h
        next => exact checkServers_ok h

theorem gsc_ok_WF {path : String} {config : JVal} {c' : ServersConfig}
    (h : get_servers_config path config = .ok c') : c'.WF := by
  obtain ⟨-, entries, hls⟩ := gsc_ok h
  exact loadServers_WF (by simp) (fun p hp => absurd hp (List.not_mem_nil p)) hls

theorem remove_server_WF {c : ServersConfig} {n : String} {c' : ServersConfig}
    (hwf : c.WF) (h : c.remove_server n = .ok c') : c'.WF := by
  unfold ServersConfig.remove_server at h
  cases hg : c.get_server n with
  | none =>
    rw [hg] at h
    injection h with h1
    subst h1
    exact hwf
  | some s =>
    rw [hg] at h
    unfold dictDel at h
    cases hA : c.servers.any (fun p => p.1 == n) with
    | false =>
      rw [hA] at h
      simp only [Bool.false_eq_true, if_false] at h
      exact Except.noConfusion h
    | true =>
      rw [hA] at h
      simp only [if_true] at h
      injection h with h1
      subst h1
      have hsub := List.eraseP_sublist
        (p := fun p : String × Server => p.1 == n) c.servers
      constructor
      · exact List.Nodup.sublist (hsub.map (fun p => p.1)) hwf.1
      · intro q hq
        exact hwf.2 q (hsub.mem hq)

theorem applyOp_WF {c : ServersConfig} (op : RegOp) (hwf : c.WF) :
    (applyOp c op).WF := by
  cases op with
  | add n u a => exact add_server_WF n u a hwf
  | rem n =>
    simp only [applyOp]
    cases hr : c.remove_server n with
    | error e => exact hwf
    | ok c2 => exact remove_server_WF hwf hr

theorem applyOps_WF {c : ServersConfig} (ops : List RegOp) (hwf : c.WF) :
    (applyOps c ops).WF := by
  induction ops generalizing c with
  | nil => exact hwf
  | cons op t ih => exact ih (applyOp_WF op hwf)

theorem get_server_keyed {l : List (String × Server)} {n : String}
    (hnm : ∀ p ∈ l, p.2.name = p.1) :
    (l.map (fun p => p.2)).find? (fun t => t.name == n) =
      (l.find? (fun p => p.1 == n)).map (fun p => p.2) := by
  induction l with
  | nil => rfl
  | cons p t ih =>
    obtain ⟨k, s⟩ := p
    have hsk : s.name = k := hnm (k, s) (by simp)
    by_cases hk : (k == n) = true
    · rw [List.map_cons,
        List.find?_cons_of_pos (p := fun x : Server => x.name == n) _
          (by show (s.name == n) = true; rw [hsk]; exact hk),
        List.find?_cons_of_pos (p := fun q : String × Server => q.1 == n) _ hk]
      rfl
    · rw [List.map_cons,
        List.find?_cons_of_neg (p := fun x : Server => x.name == n) _
          (by show ¬(s.name == n) = true; rw [hsk]; exact hk),
        List.find?_cons_of_neg (p := fun q : String × Server => q.1 == n) _ hk]
      exact ih (fun q hq => hnm q (List.mem_cons_of_mem _ hq))

/-- CLAIM C9: every registry produced by a successful load satisfies the
invariant that each mapping key equals the stored record's name field
(with unique keys), every sequence of addOrUpdate/remove operations
preserves it, and under it getServer (which scans record name fields)
coincides with keyed access (lookup by dict key). -/
theorem spec_c9_key_name_invariant (path : String) (config : JVal)
    (c : ServersConfig) (ops : List RegOp) (n : String) :
    (∀ c', get_servers_config path config = .ok c' → c'.WF) ∧
    (c.WF → (applyOps c ops).WF) ∧
    (c.WF → c.get_server n =
      (c.servers.find? (fun p => p.1 == n)).map (fun p => p.2)) :=
  ⟨fun _ h => gsc_ok_WF h,
   fun hwf => applyOps_WF ops hwf,
   fun hwf => get_server_keyed hwf.2⟩

/-- Witness for CLAIM C9: a loaded registry satisfies the key = name
invariant, an add/remove sequence preserves it, and lookup agrees with
keyed access on a concrete registry. -/
theorem spec_c9_key_name_invariant_witness :
    (ServersConfig.mk "p" [("box", ⟨"box", .jstr "alice", .jstr "1.2.3.4"⟩)]).WF ∧
    (applyOps (ServersConfig.mk "p" [("a", ⟨"a", .jstr "u", .jstr "x"⟩)])
      [RegOp.add "b" (.jstr "v") (.jstr "y"), RegOp.rem "a"]).WF ∧
    (ServersConfig.mk "p" [("a", ⟨"a", .jstr "u", .jstr "x"⟩)]).get_server "a" =
      ((ServersConfig.mk "p" [("a", ⟨"a", .jstr "u", .jstr "x"⟩)]).servers.find?
        (fun p => p.1 == "a")).map (fun p => p.2) := by
  have hwf0 : (ServersConfig.mk "p" [("a", ⟨"a", .jstr "u", .jstr "x"⟩)]).WF := by
    constructor
    · simp
    · intro p hp
      simp only [List.mem_singleton] at hp
      subst hp
      rfl
  have H := spec_c9_key_name_invariant "p"
    (doc1 [("box", .jobj [("user", .jstr "alice"), ("address", .jstr "1.2.3.4")])])
    (ServersConfig.mk "p" [("a", ⟨"a", .jstr "u", .jstr "x"⟩)])
    [RegOp.add "b" (.jstr "v") (.jstr "y"), RegOp.rem "a"] "a"
  exact ⟨H.1 (ServersConfig.mk "p"
      [("box", ⟨"box", .jstr "alice", .jstr "1.2.3.4"⟩)]) rfl,
    H.2.1 hwf0, H.2.2 hwf0⟩

theorem loadOne_to_map (s : Server) :
    loadOne s.to_map = .ok (s.user, s.address) := rfl

theorem dictSet_absent {α : Type} {kvs : List (String × α)} {k : String}
    (v : α) (h : kvs.any (fun q => q.1 == k) = false) :
    dictSet kvs k v = kvs ++ [(k, v)] := by
  unfold dictSet
  rw [h]
  simp

theorem loadServers_of_to_map {l : List (String × Server)} :
    ∀ acc : List (String × Server),
    (∀ p ∈ l, p.2.name = p.1) →
    (l.map (fun p => p.1)).Nodup →
    (∀ p ∈ l, acc.any (fun q => q.1 == p.1) = false) →
    loadServers (l.map (fun p => (p.1, p.2.to_map))) acc = .ok (acc ++ l) := by
  induction l with
  | nil => intro acc _ _ _; simp [loadServers]
  | cons p t ih =>
    intro acc hnm hnd hdisj
    obtain ⟨k, s⟩ := p
    obtain ⟨nm, su, sa⟩ := s
    have hk : nm = k := hnm (k, ⟨nm, su, sa⟩) (by simp)
    subst hk
    simp only [List.map_cons, loadServers, loadOne_to_map]
    have hα : acc.any (fun q => q.1 == nm) = false :=
      hdisj (nm, ⟨nm, su, sa⟩) (by simp)
    rw [dictSet_absent _ hα]
    rw [List.map_cons, List.nodup_cons] at hnd
    have hrec := ih (acc ++ [(nm, ⟨nm, su, sa⟩)])
      (fun q hq => hnm q (List.mem_cons_of_mem _ hq)) hnd.2 ?_
    · rw [hrec, List.append_assoc]
      rfl
    · intro q hq
      rw [List.any_append]
      have h1 : acc.any (fun r => r.1 == q.1) = false := by
        have := hdisj q (List.mem_cons_of_mem _ hq)
        exact this
      have h2 : ([(nm, (⟨nm, su, sa⟩ : Server))].any fun r => r.1 == q.1) = false := by
        simp only [List.any_cons, List.any_nil, Bool.or_false]
        rw [beq_eq_false_iff_ne]
        intro hkq
        exact hnd.1 (hkq ▸ List.mem_map.mpr ⟨q, hq, rfl⟩)
      rw [h1, h2]
      rfl

theorem find?_map_replace {α : Type} {kvs : List (String × α)} {k : String}
    (v : α) (hA : kvs.any (fun q => q.1 == k) = true) :
    ((kvs.map (fun q => if q.1 == k then (k, v) else q)).find?
      (fun q => q.1 == k)) = some (k, v) := by
  induction kvs with
  | nil => simp at hA
  | cons p t ih =>
    by_cases hp : (p.1 == k) = true
    · simp only [List.map_cons, if_pos hp]
      exact List.find?_cons_of_pos _ (by simp)
    · simp only [List.map_cons, if_neg hp]
      rw [List.find?_cons_of_neg (p := fun q : String × α => q.1 == k) _ hp]
      apply ih
      simp only [List.any_cons, hp, Bool.false_or] at hA
      exact hA

theorem find?_dictSet_self {α : Type} (kvs : List (String × α)) (k : String)
    (v : α) : (dictSet kvs k v).find? (fun q => q.1 == k) = some (k, v) := by
  cases hA : kvs.any (fun q => q.1 == k) with
  | true =>
    unfold dictSet
    rw [hA]
    simp only [if_true]
    exact find?_map_replace v hA
  | false =>
    rw [dictSet_absent v hA, List.find?_append,
      find?_eq_none_of_any_eq_false hA]
    simp

theorem fileAt_write_self (fs : FS) (p : String) (content : String) :
    (fs.write p content).fileAt p = some content := by
  unfold FS.write FS.fileAt
  rw [find?_dictSet_self]
  rfl

/-- CLAIM C1: for a registry whose records all carry non-empty string
name, user and address (and satisfy the dict invariant), save writes
json.dumps(to_map(), indent=2) plus a newline at the registry's path,
and loading the saved document succeeds with a registry whose set of
(name, user, address) records equals the original's. -/
theorem spec_c1_round_trip (path : String) (c : ServersConfig) (fs : FS)
    (hwf : c.WF)
    (_hvals : ∀ p ∈ c.servers, p.1 ≠ "" ∧ ∃ u a : String, u ≠ "" ∧ a ≠ "" ∧
      p.2.user = .jstr u ∧ p.2.address = .jstr a) :
    (c.save fs).fileAt c.path = some (jsonDumps 0 c.to_map ++ "\n") ∧
    ∃ c', get_servers_config path c.to_map = .ok c' ∧
      ∀ r : String × JVal × JVal,
        (r ∈ c'.servers.map (fun p => (p.2.name, p.2.user, p.2.address)) ↔
          r ∈ c.servers.map (fun p => (p.2.name, p.2.user, p.2.address))) := by
  constructor
  · exact fileAt_write_self fs c.path c.save_text
  · have hls := loadServers_of_to_map [] hwf.2 hwf.1
      (fun p hp => rfl)
    refine ⟨⟨path, c.servers⟩, ?_, fun r => Iff.rfl⟩
    show get_servers_config path
      (doc1 (c.servers.map (fun p => (p.1, p.2.to_map)))) = _
    rw [gsc_doc1, hls]
    rfl

/-- Witness for CLAIM C1: a concrete one-record registry round-trips. -/
theorem spec_c1_round_trip_witness :
    ((ServersConfig.mk "q" [("box", ⟨"box", .jstr "alice", .jstr "1.2.3.4"⟩)]).save
        (FS.mk [] [])).fileAt "q" =
      some (jsonDumps 0
        (ServersConfig.mk "q"
          [("box", ⟨"box", .jstr "alice", .jstr "1.2.3.4"⟩)]).to_map ++ "\n") ∧
    ∃ c', get_servers_config "q"
        (ServersConfig.mk "q"
          [("box", ⟨"box", .jstr "alice", .jstr "1.2.3.4"⟩)]).to_map = .ok c' ∧
      ∀ r : String × JVal × JVal,
        (r ∈ c'.servers.map (fun p => (p.2.name, p.2.user, p.2.address)) ↔
          r ∈ (ServersConfig.mk "q"
            [("box", ⟨"box", .jstr "alice", .jstr "1.2.3.4"⟩)]).servers.map
              (fun p => (p.2.name, p.2.user, p.2.address))) := by
  apply spec_c1_round_trip "q"
    (ServersConfig.mk "q" [("box", ⟨"box", .jstr "alice", .jstr "1.2.3.4"⟩)])
    (FS.mk [] [])
  · constructor
    · simp
    · intro p hp
      simp only [List.mem_singleton] at hp
      subst hp
      rfl
  · intro p hp
    simp only [List.mem_singleton] at hp
    subst hp
    exact ⟨by simp, "alice", "1.2.3.4", by simp, by simp, rfl, rfl⟩

/-- CLAIM C8: connection_string on a record with string user u and
address a returns exactly u ++ "@" ++ a; and after
addOrUpdate("box", "alice", "1.2.3.4") on an empty registry,
getServer("box") is present with connection string "alice@1.2.3.4". -/
theorem spec_c8_connection_string (n u a : String) :
    (Server.mk n (.jstr u) (.jstr a)).connection_string = u ++ "@" ++ a ∧
    (((ServersConfig.mk "p" []).add_server "box" (.jstr "alice")
        (.jstr "1.2.3.4")).get_server "box").map Server.connection_string =
      some "alice@1.2.3.4" :=
  ⟨rfl, rfl⟩

/-- CLAIM C10: there is a version-1 document with an object-typed servers
mapping one of whose entry values is not a mapping (here the number 5)
on which load raises an error (Python TypeError) that is not
InvalidConfig. -/
theorem spec_c10_nonmapping_entry :
    ∃ entries : List (String × JVal),
      (∃ p ∈ entries, p.2.isObj = false) ∧
      ∃ e, get_servers_config "p" (doc1 entries) = .error e ∧
        ∀ r, e ≠ .invalidConfig r := by
  refine ⟨[("a", .jnum 5)], ⟨("a", .jnum 5), by simp, rfl⟩, .typeError, rfl, ?_⟩
  intro r h
  exact PyErr.noConfusion h

theorem dirAt_init (home : String) (fs : FS) :
    (init_config home fs).dirAt (default_config_dir home) = true := by
  have hstep : ∀ g : FS, g.dirAt (default_config_dir home) = true →
      ((if (g.fileAt (default_servers_config home)).isSome then g
        else g.write (default_servers_config home)
          (jsonDumps 0 config_template)).dirAt (default_config_dir home)) = true := by
    intro g hg
    split
    · exact hg
    · exact hg
  have h1 : (if fs.dirAt (default_config_dir home) then fs
      else { fs with dirs := fs.dirs ++ [default_config_dir home] }).dirAt
        (default_config_dir home) = true := by
    split
    next h => exact h
    next => simp [FS.dirAt]
  exact hstep _ h1

theorem fileAt_init_isSome (home : String) (fs : FS) :
    ((init_config home fs).fileAt (default_servers_config home)).isSome = true := by
  have hstep : ∀ g : FS,
      (((if (g.fileAt (default_servers_config home)).isSome then g
        else g.write (default_servers_config home)
          (jsonDumps 0 config_template)).fileAt
            (default_servers_config home)).isSome) = true := by
    intro g
    split
    next h => exact h
    next => rw [fileAt_write_self]; rfl
  exact hstep _

theorem init_config_of_existing {home : String} {g : FS}
    (hd : g.dirAt (default_config_dir home) = true)
    (hf : (g.fileAt (default_servers_config home)).isSome = true) :
    init_config home g = g := by
  unfold init_config
  rw [hd]
  simp [hf]

theorem init_config_idem (home : String) (fs : FS) :
    init_config home (init_config home fs) = init_config home fs :=
  init_config_of_existing (dirAt_init home fs) (fileAt_init_isSome home fs)

/-- CLAIM C4: initialize leaves an already-existing servers file's
content unchanged whatever it is, running it twice gives byte-identical
content after the second call as after the first, and when the file is
absent it writes the fresh version-1 document with an empty servers
mapping. -/
theorem spec_c4_init_idempotent (home : String) (fs : FS) :
    ((fs.fileAt (default_servers_config home)).isSome = true →
      (init_config home fs).fileAt (default_servers_config home) =
        fs.fileAt (default_servers_config home)) ∧
    (init_config home (init_config home fs)).fileAt
        (default_servers_config home) =
      (init_config home fs).fileAt (default_servers_config home) ∧
    (fs.fileAt (default_servers_config home) = none →
      (init_config home fs).fileAt (default_servers_config home) =
        some (jsonDumps 0 config_template)) := by
  refine ⟨?_, ?_, ?_⟩
  · intro h
    have key : ∀ g : FS,
        g.fileAt (default_servers_config home) =
          fs.fileAt (default_servers_config home) →
        ((if (g.fileAt (default_servers_config home)).isSome then g
          else g.write (default_servers_config home)
            (jsonDumps 0 config_template)).fileAt
              (default_servers_config home)) =
          fs.fileAt (default_servers_config home) := by
      intro g hg
      rw [hg, h]
      simp only [if_true]
      exact hg
    exact key _ (by split <;> rfl)
  · rw [init_config_idem]
  · intro h
    have key : ∀ g : FS,
        g.fileAt (default_servers_config home) = none →
        ((if (g.fileAt (default_servers_config home)).isSome then g
          else g.write (default_servers_config home)
            (jsonDumps 0 config_template)).fileAt
              (default_servers_config home)) =
          some (jsonDumps 0 config_template) := by
      intro g hg
      rw [hg]
      simp only [Option.isSome_none, Bool.false_eq_true, if_false]
      exact fileAt_write_self g (default_servers_config home)
        (jsonDumps 0 config_template)
    exact key _ (by split <;> exact h)

/-- Witness for CLAIM C4: on an empty filesystem `init_config` writes the
fresh version-1 document (with its exact serialized text), and a second
call leaves it untouched. -/
theorem spec_c4_init_idempotent_witness :
    (init_config "h" (FS.mk [] [])).fileAt (default_servers_config "h") =
      some (jsonDumps 0 config_template) ∧
    (init_config "h" (init_config "h" (FS.mk [] []))).fileAt
        (default_servers_config "h") =
      (init_config "h" (FS.mk [] [])).fileAt (default_servers_config "h") ∧
    jsonDumps 0 config_template =
      "\x7b\n  \"version\": \"1\",\n  \"servers\": \x7b\x7d\n\x7d" :=
  ⟨(spec_c4_init_idempotent "h" (FS.mk [] [])).2.2 rfl,
   (spec_c4_init_idempotent "h" (FS.mk [] [])).2.1, rfl⟩

/-- Witness for CLAIM C6: a version-1 document whose servers value is a
JSON array fails with the malformed-servers error. -/
theorem spec_c6_servers_check_witness :
    get_servers_config "p"
        (.jobj [(VERSION_KEY, .jstr "1"), (SERVERS_KEY, .jarr [])]) =
      .error (.invalidConfig "malformed or missing servers from config") :=
  (spec_c6_servers_check "p" [(VERSION_KEY, .jstr "1"), (SERVERS_KEY, .jarr [])]
    rfl).2

/-- Witness for CLAIM C5: a two-key document with version "2" satisfies the
bad-version condition and indeed fails with the version error. -/
theorem spec_c5_version_check_witness :
    get_servers_config "p"
        (.jobj [(VERSION_KEY, .jstr "2"), (SERVERS_KEY, .jobj [])]) =
      .error (.invalidConfig "unsupported config version") :=
  (spec_c5_version_check "p"
    [(VERSION_KEY, .jstr "2"), (SERVERS_KEY, .jobj [])]).1.mpr
    (Or.inr (fun v hv => by
      cases Option.some.inj hv
      intro hc
      exact absurd (JVal.jstr.inj hc) (by decide)))
